import Mathlib

/-!
Verification development for the csvpp in-memory CSV model and codec
(src/csvpp/csvpp.hpp).  C++ std::string values are modelled as lists of
characters; the mutating Csv methods are modelled in state-passing style,
returning the table state after the call together with an optional error
(the exception the C++ method would throw); out-of-range std::vector
subscripts (undefined behaviour in the source) are modelled as a
distinguished access result.
-/

deriving instance DecidableEq for Except

namespace Csvpp

/-- Characters of a C++ std::string, modelled as a list of characters. -/
abbrev Str := List Char

/-- Test modelling the C++ expression value_[0] == a quote character: on the
empty string, std::string::operator[] at index size() returns the null
character, so the test is false. -/
def startsWithQuote : Str → Bool
  | [] => false
  | c :: _ => c == '"'

/-- Test modelling the C++ expression value_[value_.size() - 1] == a quote
character on a nonempty string; taken to be false on the empty string (the
source only ever evaluates it behind a short-circuit that rules that case
out, see checkedStripCondition below for the faithful guarded model). -/
def endsWithQuote (v : Str) : Bool :=
  match v.getLast? with
  | none => false
  | some c => c == '"'

/-- Wrap condition of Field::GetValueEscaped (csvpp.hpp lines 159-160): the
value contains the separator or a line feed, and neither its first nor its
last character is a quote character. -/
def needsWrap (sep : Char) (v : Str) : Bool :=
  (v.contains sep || v.contains '\n') && !startsWithQuote v && !endsWithQuote v

/-- Inner part of the quote-doubling loop of Field::GetValueEscaped
(csvpp.hpp lines 164-175): every quote character except the final one is
doubled.  The C++ loop inserts a quote before each interior quote and then
steps past both, so each original interior quote yields exactly two quotes
in the result while the last character is left untouched. -/
def doubleMiddle : Str → Str
  | [] => []
  | [c] => [c]
  | c :: rest => (if c == '"' then ['"', '"'] else [c]) ++ doubleMiddle rest

/-- Quote-doubling loop of Field::GetValueEscaped: the first and the last
character are left untouched and every quote strictly between them is
doubled. -/
def doubleInteriorQuotes : Str → Str
  | [] => []
  | [c] => [c]
  | c :: rest => c :: doubleMiddle rest

/-- Field::GetValueEscaped (csvpp.hpp lines 155-177): wrap the value in
quotes when needsWrap holds, then double the interior quotes.  The C++
guards the doubling loop behind find of a quote returning a hit; since the
doubling pass is the identity on quote-free strings the guard is
immaterial and is dropped here. -/
def GetValueEscaped (sep : Char) (v : Str) : Str :=
  doubleInteriorQuotes (if needsWrap sep v then '"' :: v ++ ['"'] else v)

/-- Replacement loop of CsvParser::SanitizeCellValue (csvpp.hpp lines
535-539): repeatedly find the leftmost pair of adjacent quotes, replace it
by a single quote, and resume the search after the kept quote. -/
def collapseDoubledQuotes : Str → Str
  | [] => []
  | [c] => [c]
  | c1 :: c2 :: rest =>
    if c1 == '"' && c2 == '"' then '"' :: collapseDoubledQuotes rest
    else c1 :: collapseDoubledQuotes (c2 :: rest)

/-- CsvParser::SanitizeCellValue (csvpp.hpp lines 529-540): strip one outer
pair of quotes when the first and last characters are both quotes (substr
of a single-quote string yields the empty string, matching drop and
dropLast), then collapse doubled quotes. -/
def SanitizeCellValue (v : Str) : Str :=
  collapseDoubledQuotes (if startsWithQuote v && endsWithQuote v then (v.drop 1).dropLast else v)

/-- Guarded character access of a C++ std::string: index i is readable for
i < size (the character) and for i = size (the guaranteed null character);
any larger index is an out-of-range read, modelled as none. -/
def cppStringGet? (v : Str) (i : Nat) : Option Char :=
  if i = v.length then some (Char.ofNat 0) else v[i]?

/-- Result of size() - 1 computed in size_t arithmetic. -/
def sizeTSub1 (n : Nat) : Nat :=
  if n = 0 then 2 ^ 64 - 1 else n - 1

/-- Faithful model of the strip condition of SanitizeCellValue including
evaluation order: value[0] is read first, and value[value.size() - 1] is
read only if the first read produced a quote (the C++ conjunction
short-circuits).  Returns none if an out-of-range read happens. -/
def checkedStripCondition (v : Str) : Option Bool :=
  match cppStringGet? v 0 with
  | none => none
  | some c0 =>
    if c0 == '"' then
      match cppStringGet? v (sizeTSub1 v.length) with
      | none => none
      | some c1 => some (c1 == '"')
    else some false

/-- SanitizeCellValue with every direct character access checked: none
means the C++ code would perform an out-of-range read. -/
def checkedSanitizeCellValue (v : Str) : Option Str :=
  match checkedStripCondition v with
  | none => none
  | some b => some (collapseDoubledQuotes (if b then (v.drop 1).dropLast else v))

/-- Cast of a C++ int to size_t (64-bit): reduction modulo 2 to the 64. -/
def intToSizeT (i : Int) : Nat :=
  (i % (2 ^ 64 : Int)).toNat

/-- Field (csvpp.hpp lines 119-181): a single value stored as a string. -/
structure Field where
  value : Str
deriving DecidableEq

/-- Row (csvpp.hpp lines 186-251): an ordered sequence of fields. -/
structure Row where
  fields : List Field
deriving DecidableEq

/-- Row::Width. -/
def Row.Width (r : Row) : Nat := r.fields.length

/-- Row::AddValue. -/
def Row.AddValue (r : Row) (f : Field) : Row := ⟨r.fields ++ [f]⟩

/-- Row::Clear. -/
def Row.Clear (_ : Row) : Row := ⟨[]⟩

/-- Errors corresponding to the exception classes of csvpp.hpp. -/
inductive CsvError where
  | invalidRowWidth
  | invalidHeaderRowInsertion
  | outOfBoundRowAccess
  | emptyCsvRowAccess
  | outOfBoundFieldAccess
deriving DecidableEq

/-- Outcome of an accessor that may throw or may perform an out-of-range
std::vector subscript (undefined behaviour, modelled as the ub result). -/
inductive AccessResult (α : Type) where
  | ok (a : α)
  | err (e : CsvError)
  | ub
deriving DecidableEq

/-- Row::ValueAt (csvpp.hpp lines 221-226): the guard compares the int
index, converted to size_t, against Width() - 1 computed in size_t
arithmetic; when the guard passes, fields_ is subscripted without a bounds
check. -/
def Row.ValueAt (r : Row) (index : Int) : AccessResult Str :=
  if sizeTSub1 r.Width < intToSizeT index then .err .outOfBoundFieldAccess
  else
    match r.fields[intToSizeT index]? with
    | some f => .ok f.value
    | none => .ub

/-- Csv (csvpp.hpp lines 257-462): rows plus the separator, the allowed
width and the header flag. -/
structure Csv where
  has_header_row : Bool
  is_width_initialized : Bool
  separator : Char
  allowed_width : Nat
  rows : List Row
deriving DecidableEq

/-- Csv constructor: default flags, no rows. -/
def Csv.new (separator : Char) : Csv :=
  ⟨false, false, separator, 0, []⟩

/-- Csv::Empty. -/
def Csv.Empty (c : Csv) : Bool := c.rows.isEmpty

/-- Csv::RowCount. -/
def Csv.RowCount (c : Csv) : Nat := c.rows.length

/-- Csv::AllowedWidth. -/
def Csv.AllowedWidth (c : Csv) : Nat := c.allowed_width

/-- Csv::IsWidthInitialized. -/
def Csv.IsWidthInitialized (c : Csv) : Bool := c.is_width_initialized

/-- Csv::InitializeWidth. -/
def Csv.InitializeWidth (c : Csv) (w : Nat) : Csv :=
  if c.is_width_initialized then c
  else { c with allowed_width := w, is_width_initialized := true }

/-- Csv::PushRow. -/
def Csv.PushRow (c : Csv) (r : Row) : Csv :=
  { c with rows := c.rows ++ [r] }

/-- Csv::SetHasHeaderRow. -/
def Csv.SetHasHeaderRow (c : Csv) : Csv :=
  { c with has_header_row := true }

/-- Csv::AddDataRow (csvpp.hpp lines 283-289), state-passing: on a width
mismatch the exception is thrown before any mutation, so the returned
state is the argument state. -/
def Csv.AddDataRow (c : Csv) (r : Row) : Csv × Option CsvError :=
  if c.IsWidthInitialized && c.AllowedWidth != r.Width then (c, some .invalidRowWidth)
  else ((c.InitializeWidth r.Width).PushRow r, none)

/-- Csv::AddHeaderRow (csvpp.hpp lines 317-324), state-passing: the
emptiness check precedes any mutation. -/
def Csv.AddHeaderRow (c : Csv) (r : Row) : Csv × Option CsvError :=
  if !c.Empty then (c, some .invalidHeaderRowInsertion)
  else (((c.InitializeWidth r.Width).PushRow r).SetHasHeaderRow, none)

/-- Csv::RowAt (csvpp.hpp lines 330-338): the empty check comes first;
then the guard RowCount() + 1 < index (index converted to size_t) throws;
otherwise rows_ is subscripted without a bounds check, an out-of-range
read whenever the converted index is not below the row count. -/
def Csv.RowAt (c : Csv) (index : Int) : AccessResult Row :=
  if c.Empty then .err .emptyCsvRowAccess
  else if c.RowCount + 1 < intToSizeT index then .err .outOfBoundRowAccess
  else
    match c.rows[intToSizeT index]? with
    | some r => .ok r
    | none => .ub

/-- Inner loop of Csv::SaveToFile (csvpp.hpp lines 417-422): emit each
field escaped, with the separator between consecutive fields and not after
the last one. -/
def fieldsOutput (sep : Char) : List Field → Str
  | [] => []
  | [f] => GetValueEscaped sep f.value
  | f :: rest => GetValueEscaped sep f.value ++ sep :: fieldsOutput sep rest

/-- Outer loop of Csv::SaveToFile (csvpp.hpp lines 416-424): emit each
row followed by a line feed. -/
def rowsOutput (sep : Char) : List Row → Str
  | [] => []
  | r :: rest => fieldsOutput sep r.fields ++ '\n' :: rowsOutput sep rest

/-- Csv::SaveToFile (csvpp.hpp lines 413-426), modelled as the character
stream written to the file. -/
def Csv.SaveToFile (c : Csv) : Str :=
  rowsOutput c.separator c.rows

/-- Mutable local state of CsvParser::Parse: the quote flag, the field
accumulator, the row under construction and the table built so far. -/
structure ParseState where
  is_quoted : Bool
  field_value : Str
  row : Row
  csv : Csv
deriving DecidableEq

/-- Initial parser state: Parse declares a default-constructed Csv (with
separator comma), an empty row and an empty accumulator. -/
def ParseState.init : ParseState :=
  ⟨false, [], ⟨[]⟩, Csv.new ','⟩

/-- Per-byte transition of CsvParser::Parse (csvpp.hpp lines 488-521).  A
quote byte toggles the quote flag when the accumulator is empty or starts
with a quote, and is always appended; a separator byte outside quotes ends
the field; a line-feed byte outside quotes ends the field and commits the
row, through AddHeaderRow if the table is still empty and the header flag
was requested and through AddDataRow otherwise; an exception thrown by the
commit propagates out of Parse.  Every other byte is appended. -/
def parseStep (sep : Char) (hdr : Bool) (st : ParseState) (b : Char) : Except CsvError ParseState :=
  if b == '"' then
    let toggled := if st.field_value.isEmpty || startsWithQuote st.field_value then
      !st.is_quoted else st.is_quoted
    .ok ⟨toggled, st.field_value ++ [b], st.row, st.csv⟩
  else if b == sep then
    if st.is_quoted then .ok { st with field_value := st.field_value ++ [b] }
    else
      .ok ⟨false, [], st.row.AddValue ⟨SanitizeCellValue st.field_value⟩, st.csv⟩
  else if b == '\n' then
    if st.is_quoted then .ok { st with field_value := st.field_value ++ [b] }
    else
      let row2 := st.row.AddValue ⟨SanitizeCellValue st.field_value⟩
      match (if st.csv.Empty && hdr then st.csv.AddHeaderRow row2 else st.csv.AddDataRow row2) with
      | (csv2, none) => .ok ⟨false, [], st.row.Clear, csv2⟩
      | (_, some e) => .error e
  else .ok { st with field_value := st.field_value ++ [b] }

/-- Byte loop of CsvParser::Parse.  The source reads the file in bounded
chunks, but the per-byte processing is a single left-to-right pass over
the whole byte sequence, which is what is modelled. -/
def parseChars (sep : Char) (hdr : Bool) : ParseState → Str → Except CsvError ParseState
  | st, [] => .ok st
  | st, b :: rest =>
    match parseStep sep hdr st b with
    | .ok st2 => parseChars sep hdr st2 rest
    | .error e => .error e

/-- CsvParser::Parse (csvpp.hpp lines 466-526): run the byte loop from the
initial state and return the accumulated Csv.  State left in the field
accumulator or the pending row when the input ends is discarded. -/
def Parse (input : Str) (sep : Char) (hdr : Bool) : Except CsvError Csv :=
  Except.map (fun st => st.csv) (parseChars sep hdr ParseState.init input)

/-- Doubling of every quote character in a string; used to state what the
escaping loop does to the characters strictly between the first and the
last one. -/
def doubleAll : Str → Str
  | [] => []
  | c :: rest => (if c == '"' then ['"', '"'] else [c]) ++ doubleAll rest

/-- Wrap condition as the specification sentence words it: the value
contains the separator or a line feed and is not already wrapped in a
leading-and-trailing quote character pair.  Stated for comparison with
needsWrap, the condition the source actually implements. -/
def specWrapCondition (sep : Char) (v : Str) : Bool :=
  (v.contains sep || v.contains '\n') && !(startsWithQuote v && endsWithQuote v)

/-- Tables reachable from a fresh Csv through successful AddDataRow and
AddHeaderRow calls only. -/
inductive Built : Csv → Prop where
  | new (sep : Char) : Built (Csv.new sep)
  | data {c c2 : Csv} {r : Row} : Built c → c.AddDataRow r = (c2, none) → Built c2
  | header {c c2 : Csv} {r : Row} : Built c → c.AddHeaderRow r = (c2, none) → Built c2

/-! Helper lemmas about the quote-collapsing and quote-doubling passes. -/

theorem collapse_cons_ne {c : Char} (h : (c == '"') = false) (t : Str) :
    collapseDoubledQuotes (c :: t) = c :: collapseDoubledQuotes t := by
  cases t with
  | nil => rfl
  | cons d t2 => simp [collapseDoubledQuotes, h]

theorem collapse_pair (t : Str) :
    collapseDoubledQuotes ('"' :: '"' :: t) = '"' :: collapseDoubledQuotes t := by
  simp [collapseDoubledQuotes]

theorem collapse_cons_cons {c1 c2 : Char} (h : (c1 == '"' && c2 == '"') = false) (t : Str) :
    collapseDoubledQuotes (c1 :: c2 :: t) = c1 :: collapseDoubledQuotes (c2 :: t) := by
  simp [collapseDoubledQuotes, h]

theorem doubleAll_cons_quote (v : Str) : doubleAll ('"' :: v) = '"' :: '"' :: doubleAll v := by
  simp [doubleAll]

theorem doubleAll_cons_ne {c : Char} (h : (c == '"') = false) (v : Str) :
    doubleAll (c :: v) = c :: doubleAll v := by
  simp [doubleAll, h]

theorem collapse_doubleAll (v : Str) : collapseDoubledQuotes (doubleAll v) = v := by
  induction v with
  | nil => rfl
  | cons c rest ih =>
    by_cases h : c = '"'
    · subst h
      rw [doubleAll_cons_quote, collapse_pair, ih]
    · have hb : (c == '"') = false := by simp [h]
      rw [doubleAll_cons_ne hb, collapse_cons_ne hb, ih]

theorem collapse_doubleAll_concat (v : Str) (d : Char) :
    collapseDoubledQuotes (doubleAll v ++ [d]) = v ++ [d] := by
  induction v with
  | nil => rfl
  | cons c rest ih =>
    by_cases h : c = '"'
    · subst h
      rw [doubleAll_cons_quote]
      simp only [List.cons_append]
      rw [collapse_pair, ih]
    · have hb : (c == '"') = false := by simp [h]
      rw [doubleAll_cons_ne hb]
      simp only [List.cons_append]
      rw [collapse_cons_ne hb, ih]

theorem collapse_quote_doubleAll_concat (v : Str) (d : Char) (hd : (d == '"') = false) :
    collapseDoubledQuotes ('"' :: doubleAll v ++ [d]) = '"' :: v ++ [d] := by
  induction v with
  | nil =>
    have hpair : (('"' : Char) == '"' && d == '"') = false := by simp [hd]
    show collapseDoubledQuotes ['"', d] = ['"', d]
    rw [collapse_cons_cons hpair]
    rfl
  | cons c rest ih =>
    by_cases h : c = '"'
    · subst h
      rw [doubleAll_cons_quote]
      simp only [List.cons_append]
      rw [collapse_pair]
      simp only [List.cons_append] at ih
      rw [ih]
    · have hb : (c == '"') = false := by simp [h]
      have hpair : (('"' : Char) == '"' && c == '"') = false := by simp [hb]
      rw [doubleAll_cons_ne hb]
      simp only [List.cons_append]
      rw [collapse_cons_cons hpair, collapse_cons_ne hb, collapse_doubleAll_concat]

theorem doubleMiddle_concat (m : Str) (d : Char) :
    doubleMiddle (m ++ [d]) = doubleAll m ++ [d] := by
  induction m with
  | nil => rfl
  | cons c rest ih =>
    cases rest with
    | nil => simp [doubleMiddle, doubleAll]
    | cons e rest2 =>
      rw [show ((c :: e :: rest2) ++ [d] : Str) = c :: ((e :: rest2) ++ [d]) from rfl]
      rw [show doubleMiddle (c :: ((e :: rest2) ++ [d]))
            = (if c == '"' then ['"', '"'] else [c]) ++ doubleMiddle ((e :: rest2) ++ [d]) from rfl]
      rw [ih]
      rw [show doubleAll (c :: e :: rest2)
            = (if c == '"' then ['"', '"'] else [c]) ++ doubleAll (e :: rest2) from rfl]
      rw [List.append_assoc]

theorem doubleInterior_decomp (c : Char) (m : Str) (d : Char) :
    doubleInteriorQuotes ((c :: m) ++ [d]) = (c :: doubleAll m) ++ [d] := by
  cases m with
  | nil => rfl
  | cons e rest =>
    rw [show ((c :: e :: rest) ++ [d] : Str) = c :: ((e :: rest) ++ [d]) from rfl]
    rw [show doubleInteriorQuotes (c :: ((e :: rest) ++ [d]))
          = c :: doubleMiddle ((e :: rest) ++ [d]) from rfl]
    rw [doubleMiddle_concat]
    rfl

theorem doubleAll_of_no_quote {v : Str} (h : ∀ x ∈ v, x ≠ '"') : doubleAll v = v := by
  induction v with
  | nil => rfl
  | cons c rest ih =>
    have hc : (c == '"') = false := by
      simp [h c (List.mem_cons_self c rest)]
    rw [doubleAll_cons_ne hc, ih (fun x hx => h x (List.mem_cons_of_mem c hx))]

theorem collapse_of_no_quote {v : Str} (h : ∀ x ∈ v, x ≠ '"') :
    collapseDoubledQuotes v = v := by
  induction v with
  | nil => rfl
  | cons c rest ih =>
    have hc : (c == '"') = false := by
      simp [h c (List.mem_cons_self c rest)]
    rw [collapse_cons_ne hc, ih (fun x hx => h x (List.mem_cons_of_mem c hx))]

theorem doubleInterior_of_no_quote {v : Str} (h : ∀ x ∈ v, x ≠ '"') :
    doubleInteriorQuotes v = v := by
  cases v with
  | nil => rfl
  | cons c rest =>
    rcases List.eq_nil_or_concat rest with hr | ⟨m, d, hr⟩
    · subst hr; rfl
    · subst hr
      simp only [List.concat_eq_append] at h ⊢
      rw [show (c :: (m ++ [d]) : Str) = (c :: m) ++ [d] from rfl, doubleInterior_decomp]
      have hm : ∀ x ∈ m, x ≠ '"' := by
        intro x hx
        exact h x (List.mem_cons_of_mem c (List.mem_append_left [d] hx))
      rw [doubleAll_of_no_quote hm]

theorem startsWithQuote_false_of_no_quote {v : Str} (h : ∀ x ∈ v, x ≠ '"') :
    startsWithQuote v = false := by
  cases v with
  | nil => rfl
  | cons c rest =>
    simp [startsWithQuote, h c (List.mem_cons_self c rest)]

theorem endsWithQuote_concat (m : Str) (d : Char) :
    endsWithQuote (m ++ [d]) = (d == '"') := by
  rw [endsWithQuote, List.getLast?_concat]

theorem endsWithQuote_false_of_no_quote {v : Str} (h : ∀ x ∈ v, x ≠ '"') :
    endsWithQuote v = false := by
  rcases List.eq_nil_or_concat v with hr | ⟨m, d, hr⟩
  · subst hr; rfl
  · subst hr
    simp only [List.concat_eq_append] at h ⊢
    rw [endsWithQuote_concat]
    have : d ∈ m ++ [d] := List.mem_append_right m (List.mem_singleton_self d)
    simp [h d this]

theorem sanitize_eq_of_cond_false {v : Str}
    (h : (startsWithQuote v && endsWithQuote v) = false) :
    SanitizeCellValue v = collapseDoubledQuotes v := by
  unfold SanitizeCellValue
  rw [h, if_neg Bool.false_ne_true]

theorem sanitize_eq_of_cond_true {v : Str}
    (h : (startsWithQuote v && endsWithQuote v) = true) :
    SanitizeCellValue v = collapseDoubledQuotes ((v.drop 1).dropLast) := by
  unfold SanitizeCellValue
  rw [h, if_pos rfl]

/-- Core decode-after-encode lemma: whenever the original value is not both
quote-headed and quote-tailed, the parser's sanitization undoes the
writer's escaping exactly. -/
theorem sanitize_escape_core (sep : Char) (v : Str)
    (h : (startsWithQuote v && endsWithQuote v) = false) :
    SanitizeCellValue (GetValueEscaped sep v) = v := by
  by_cases hw : needsWrap sep v = true
  · unfold GetValueEscaped
    rw [if_pos hw]
    rw [show ('"' :: v ++ ['"'] : Str) = ('"' :: v) ++ ['"'] from rfl, doubleInterior_decomp]
    have hcond : (startsWithQuote ((('"' : Char) :: doubleAll v) ++ ['"'])
        && endsWithQuote ((('"' : Char) :: doubleAll v) ++ ['"'])) = true := by
      rw [endsWithQuote_concat]
      rfl
    rw [sanitize_eq_of_cond_true hcond]
    rw [show (List.drop 1 ((('"' : Char) :: doubleAll v) ++ ['"'])) = doubleAll v ++ ['"'] from rfl,
      List.dropLast_concat, collapse_doubleAll]
  · unfold GetValueEscaped
    rw [if_neg hw]
    cases v with
    | nil =>
      rfl
    | cons c rest =>
      rcases List.eq_nil_or_concat rest with hr | ⟨m, d, hr⟩
      · subst hr
        have hc : (c == '"') = false := by
          rcases hb : c == '"'
          · rfl
          · exfalso
            rw [show startsWithQuote [c] = (c == '"') from rfl,
              show endsWithQuote [c] = (c == '"') from rfl, hb] at h
            simp at h
        rw [show doubleInteriorQuotes [c] = [c] from rfl]
        have hcond : (startsWithQuote [c] && endsWithQuote [c]) = false := by
          rw [show startsWithQuote [c] = (c == '"') from rfl,
            show endsWithQuote [c] = (c == '"') from rfl, hc]
          rfl
        rw [sanitize_eq_of_cond_false hcond]
        exact collapse_cons_ne hc []
      · subst hr
        simp only [List.concat_eq_append] at h hw ⊢
        rw [← List.cons_append] at h
        rw [show (c :: (m ++ [d]) : Str) = (c :: m) ++ [d] from rfl, doubleInterior_decomp]
        rw [show startsWithQuote ((c :: m) ++ [d]) = (c == '"') from rfl,
          endsWithQuote_concat] at h
        have hcond : (startsWithQuote ((c :: doubleAll m) ++ [d])
            && endsWithQuote ((c :: doubleAll m) ++ [d])) = false := by
          rw [show startsWithQuote ((c :: doubleAll m) ++ [d]) = (c == '"') from rfl,
            endsWithQuote_concat]
          exact h
        rw [sanitize_eq_of_cond_false hcond]
        rcases hc : c == '"'
        · rw [show ((c :: doubleAll m) ++ [d] : Str) = c :: (doubleAll m ++ [d]) from rfl,
            collapse_cons_ne hc, collapse_doubleAll_concat]
          rfl
        · have hceq : c = '"' := eq_of_beq hc
          subst hceq
          have hd : (d == '"') = false := by
            rcases hdb : d == '"'
            · rfl
            · rw [hc, hdb] at h
              simp at h
          exact collapse_quote_doubleAll_concat m d hd

theorem doubleInterior_head? (v : Str) :
    (doubleInteriorQuotes v).head? = v.head? := by
  cases v with
  | nil => rfl
  | cons c rest =>
    rcases List.eq_nil_or_concat rest with hr | ⟨m, d, hr⟩
    · subst hr; rfl
    · subst hr
      simp only [List.concat_eq_append]
      rw [show (c :: (m ++ [d]) : Str) = (c :: m) ++ [d] from rfl, doubleInterior_decomp]
      rfl

theorem doubleInterior_getLast? (v : Str) :
    (doubleInteriorQuotes v).getLast? = v.getLast? := by
  cases v with
  | nil => rfl
  | cons c rest =>
    rcases List.eq_nil_or_concat rest with hr | ⟨m, d, hr⟩
    · subst hr; rfl
    · subst hr
      simp only [List.concat_eq_append]
      rw [show (c :: (m ++ [d]) : Str) = (c :: m) ++ [d] from rfl, doubleInterior_decomp,
        List.getLast?_concat, List.getLast?_concat]

/-! Helper lemmas characterizing the Csv append operations. -/

theorem addHeaderRow_of_empty (f1 f2 : Bool) (f3 : Char) (f4 : Nat) (r : Row) :
    (⟨f1, f2, f3, f4, []⟩ : Csv).AddHeaderRow r
      = (⟨true, true, f3, if f2 then f4 else r.Width, [r]⟩, none) := by
  unfold Csv.AddHeaderRow Csv.Empty Csv.InitializeWidth Csv.PushRow Csv.SetHasHeaderRow
  cases f2 <;> simp

theorem addHeaderRow_of_nonempty (f1 f2 : Bool) (f3 : Char) (f4 : Nat) (r0 : Row)
    (rs : List Row) (r : Row) :
    (⟨f1, f2, f3, f4, r0 :: rs⟩ : Csv).AddHeaderRow r
      = (⟨f1, f2, f3, f4, r0 :: rs⟩, some .invalidHeaderRowInsertion) := by
  rfl

theorem addDataRow_uninit (f1 : Bool) (f3 : Char) (f4 : Nat) (rs : List Row) (r : Row) :
    (⟨f1, false, f3, f4, rs⟩ : Csv).AddDataRow r = (⟨f1, true, f3, r.Width, rs ++ [r]⟩, none) := by
  unfold Csv.AddDataRow Csv.IsWidthInitialized Csv.AllowedWidth Csv.InitializeWidth Csv.PushRow
  simp

theorem addDataRow_init_ok (f1 : Bool) (f3 : Char) (W : Nat) (rs : List Row) (r : Row)
    (hW : r.Width = W) :
    (⟨f1, true, f3, W, rs⟩ : Csv).AddDataRow r = (⟨f1, true, f3, W, rs ++ [r]⟩, none) := by
  subst hW
  unfold Csv.AddDataRow Csv.IsWidthInitialized Csv.AllowedWidth Csv.InitializeWidth Csv.PushRow
  simp

theorem addDataRow_success_inv {c c2 : Csv} {r : Row} (h : c.AddDataRow r = (c2, none)) :
    (c.IsWidthInitialized && c.AllowedWidth != r.Width) = false
      ∧ c2 = (c.InitializeWidth r.Width).PushRow r := by
  unfold Csv.AddDataRow at h
  by_cases hc : (c.IsWidthInitialized && c.AllowedWidth != r.Width) = true
  · rw [if_pos hc] at h
    exact absurd (congrArg Prod.snd h) (by simp)
  · rw [if_neg hc] at h
    have hb : (c.IsWidthInitialized && c.AllowedWidth != r.Width) = false := by
      rcases hx : (c.IsWidthInitialized && c.AllowedWidth != r.Width)
      · rfl
      · exact absurd hx hc
    exact ⟨hb, (congrArg Prod.fst h).symm⟩

theorem addHeaderRow_success_inv {c c2 : Csv} {r : Row} (h : c.AddHeaderRow r = (c2, none)) :
    c.rows = [] ∧ c2 = ((c.InitializeWidth r.Width).PushRow r).SetHasHeaderRow := by
  unfold Csv.AddHeaderRow at h
  by_cases hc : (!c.Empty) = true
  · rw [if_pos hc] at h
    exact absurd (congrArg Prod.snd h) (by simp)
  · rw [if_neg hc] at h
    have hb : c.Empty = true := by
      rcases hx : c.Empty
      · exact absurd (show (!c.Empty) = true by rw [hx]; rfl) hc
      · rfl
    exact ⟨List.isEmpty_iff.mp hb, (congrArg Prod.fst h).symm⟩

/-- C2, part refuted: the claim asserts sanitize after escape is the
identity on every text value and in particular on the pre-quoted value
consisting of quoted in surrounding quote characters; on the code,
escaping leaves that value unchanged and sanitization then strips the
outer quote pair, so the round trip returns quoted without its quotes. -/
theorem claim2_counterexample :
    SanitizeCellValue (GetValueEscaped ',' ['"', 'q', 'u', 'o', 't', 'e', 'd', '"'])
      = ['q', 'u', 'o', 't', 'e', 'd']
  ∧ (['q', 'u', 'o', 't', 'e', 'd'] : Str) ≠ ['"', 'q', 'u', 'o', 't', 'e', 'd', '"'] := by
  constructor
  · decide
  · decide

/-- C2, amended: sanitize after escape returns the value unchanged for
every value that is not both quote-headed and quote-tailed (the excluded
values are exactly those the strip step of SanitizeCellValue truncates). -/
theorem claim2_sanitize_escape (sep : Char) (v : Str)
    (h : (startsWithQuote v && endsWithQuote v) = false) :
    SanitizeCellValue (GetValueEscaped sep v) = v :=
  sanitize_escape_core sep v h

/-- Witness for the amended C2 at the concrete value hel,lo. -/
theorem claim2_witness :
    (startsWithQuote ['h', 'e', 'l', ',', 'l', 'o']
        && endsWithQuote ['h', 'e', 'l', ',', 'l', 'o']) = false
  ∧ SanitizeCellValue (GetValueEscaped ',' ['h', 'e', 'l', ',', 'l', 'o'])
      = ['h', 'e', 'l', ',', 'l', 'o'] :=
  ⟨by decide, claim2_sanitize_escape ',' ['h', 'e', 'l', ',', 'l', 'o'] (by decide)⟩

/-- C3, part refuted: the claim asserts that a value that starts with a
quote but does not end with one and contains the separator is still
wrapped; on the code the wrap condition also requires the first character
not to be a quote, so the value quote a comma b satisfies the claim-side
wrap condition yet is emitted unchanged, in particular not quote-tailed. -/
theorem claim3_counterexample :
    specWrapCondition ',' ['"', 'a', ',', 'b'] = true
  ∧ GetValueEscaped ',' ['"', 'a', ',', 'b'] = ['"', 'a', ',', 'b']
  ∧ endsWithQuote (GetValueEscaped ',' ['"', 'a', ',', 'b']) = false := by
  refine ⟨by decide, by decide, by decide⟩

/-- C3, amended: the escaped form is wrapped in quotes exactly when the
value contains the separator or a line feed and neither its first nor its
last character is a quote; when the first or last character is a quote or
no separator and no line feed occurs, no outer quotes are added, witnessed
by preservation of the first and last characters. -/
theorem claim3_wrap_characterization (sep : Char) (v : Str) :
    ((v.contains sep || v.contains '\n') = true → startsWithQuote v = false →
      endsWithQuote v = false →
      GetValueEscaped sep v = '"' :: doubleAll v ++ ['"'])
  ∧ (startsWithQuote v = true ∨ endsWithQuote v = true
      ∨ (v.contains sep || v.contains '\n') = false →
      (GetValueEscaped sep v).head? = v.head?
        ∧ (GetValueEscaped sep v).getLast? = v.getLast?) := by
  constructor
  · intro h1 h2 h3
    have hw : needsWrap sep v = true := by
      rw [needsWrap, h1, h2, h3]
      rfl
    unfold GetValueEscaped
    rw [if_pos hw]
    rw [show ('"' :: v ++ ['"'] : Str) = ('"' :: v) ++ ['"'] from rfl, doubleInterior_decomp]
  · intro h
    have hw : needsWrap sep v = false := by
      rw [needsWrap]
      rcases h with h | h | h
      · rw [h]; simp
      · rw [h]; simp
      · rw [h]; simp
    unfold GetValueEscaped
    rw [if_neg (by rw [hw]; exact Bool.false_ne_true)]
    exact ⟨doubleInterior_head? v, doubleInterior_getLast? v⟩

/-- Witness for the amended C3: the value a comma b is wrapped, while the
half-quoted value quote a comma b keeps its first and last characters. -/
theorem claim3_witness :
    ((['a', ',', 'b'] : Str).contains ',' || (['a', ',', 'b'] : Str).contains '\n') = true
  ∧ startsWithQuote ['a', ',', 'b'] = false
  ∧ endsWithQuote ['a', ',', 'b'] = false
  ∧ GetValueEscaped ',' ['a', ',', 'b'] = '"' :: doubleAll ['a', ',', 'b'] ++ ['"']
  ∧ startsWithQuote ['"', 'a', ',', 'b'] = true
  ∧ (GetValueEscaped ',' ['"', 'a', ',', 'b']).head? = (['"', 'a', ',', 'b'] : Str).head?
  ∧ (GetValueEscaped ',' ['"', 'a', ',', 'b']).getLast? = (['"', 'a', ',', 'b'] : Str).getLast? :=
  ⟨by decide, by decide, by decide,
    (claim3_wrap_characterization ',' ['a', ',', 'b']).1 (by decide) (by decide) (by decide),
    by decide,
    ((claim3_wrap_characterization ',' ['"', 'a', ',', 'b']).2 (Or.inl (by decide))).1,
    ((claim3_wrap_characterization ',' ['"', 'a', ',', 'b']).2 (Or.inl (by decide))).2⟩

/-- C10: every character access SanitizeCellValue performs on the field
buffer is defined; in particular, on the empty buffer the short-circuited
strip condition reads only value at index zero (the guaranteed null
character of std::string) and never evaluates value at size minus one. -/
theorem claim10_sanitize_in_range (v : Str) :
    checkedSanitizeCellValue v = some (SanitizeCellValue v) := by
  have hcond : checkedStripCondition v = some (startsWithQuote v && endsWithQuote v) := by
    cases v with
    | nil => rfl
    | cons c rest =>
      have h0 : cppStringGet? (c :: rest) 0 = some c := by
        unfold cppStringGet?
        rw [if_neg (by simp)]
        exact List.getElem?_cons_zero
      rcases hc : c == '"'
      · unfold checkedStripCondition
        rw [h0]
        simp [hc, startsWithQuote]
      · obtain ⟨d, hd⟩ : ∃ d, (c :: rest).getLast? = some d := by
          cases hgl : (c :: rest).getLast? with
          | none => exact absurd (List.getLast?_eq_none_iff.mp hgl) (by simp)
          | some d => exact ⟨d, rfl⟩
        have h1 : cppStringGet? (c :: rest) rest.length = some d := by
          unfold cppStringGet?
          rw [if_neg (by simp)]
          rw [← hd, List.getLast?_eq_getElem?]
          simp
        simp [checkedStripCondition, h0, hc, h1, sizeTSub1, startsWithQuote, endsWithQuote, hd]
  unfold checkedSanitizeCellValue SanitizeCellValue
  rw [hcond]

/-- C4: Csv::RowAt is documented (csvpp.hpp lines 327-328) and tested
(csvpp.test.cpp, OutOfBoundRowAccessException at index 3 of a 3-row Csv)
to throw for every index outside the row range, but the guard compares
RowCount() + 1 against the index, so on a 3-row table the indices 3 and 4
pass the guard and reach an out-of-range std::vector subscript, undefined
behaviour, while 5 and larger throw; in-range indices return the stored
row, and the empty table throws the empty-access error. -/
theorem claim4_rowAt_unchecked_read :
    ((⟨false, true, ',', 1, [⟨[⟨['x']⟩]⟩, ⟨[⟨['y']⟩]⟩, ⟨[⟨['z']⟩]⟩]⟩ : Csv).RowAt 3
      = .ub)
  ∧ ((⟨false, true, ',', 1, [⟨[⟨['x']⟩]⟩, ⟨[⟨['y']⟩]⟩, ⟨[⟨['z']⟩]⟩]⟩ : Csv).RowAt 4
      = .ub)
  ∧ ((⟨false, true, ',', 1, [⟨[⟨['x']⟩]⟩, ⟨[⟨['y']⟩]⟩, ⟨[⟨['z']⟩]⟩]⟩ : Csv).RowAt 5
      = .err .outOfBoundRowAccess)
  ∧ ((⟨false, true, ',', 1, [⟨[⟨['x']⟩]⟩, ⟨[⟨['y']⟩]⟩, ⟨[⟨['z']⟩]⟩]⟩ : Csv).RowAt 2
      = .ok ⟨[⟨['z']⟩]⟩)
  ∧ ((Csv.new ',').RowAt 0 = .err .emptyCsvRowAccess) := by
  refine ⟨by decide, by decide, by decide, by decide, by decide⟩

/-- C5: Row::ValueAt is specified to throw for every index at or beyond
the width, but its guard computes Width() - 1 in unsigned arithmetic, so
on a width-zero row the guard compares against the maximal size_t, never
throws, and every call reaches an out-of-range std::vector subscript,
undefined behaviour; rows of positive width behave as specified. -/
theorem claim5_valueAt_unchecked_read :
    (Row.ValueAt ⟨[]⟩ 0 = .ub)
  ∧ (Row.ValueAt ⟨[]⟩ 3 = .ub)
  ∧ (Row.ValueAt ⟨[⟨['v']⟩, ⟨['w']⟩, ⟨['u']⟩]⟩ 4 = .err .outOfBoundFieldAccess)
  ∧ (Row.ValueAt ⟨[⟨['v']⟩, ⟨['w']⟩, ⟨['u']⟩]⟩ 3 = .err .outOfBoundFieldAccess)
  ∧ (Row.ValueAt ⟨[⟨['v']⟩, ⟨['w']⟩, ⟨['u']⟩]⟩ 0 = .ok ['v']) := by
  refine ⟨by decide, by decide, by decide, by decide, by decide⟩

/-- C6: once the allowed width is initialized, AddDataRow with a row of a
different width returns the invalid-row-width error and the table state
is exactly the state before the call, with no partial append. -/
theorem claim6_width_mismatch_rejected (t : Csv) (r : Row)
    (h1 : t.IsWidthInitialized = true) (h2 : r.Width ≠ t.AllowedWidth) :
    t.AddDataRow r = (t, some .invalidRowWidth) := by
  have hb : (t.AllowedWidth != r.Width) = true :=
    bne_iff_ne.mpr (fun he => h2 he.symm)
  unfold Csv.AddDataRow
  rw [h1, hb]
  rfl

/-- Witness for C6 at a concrete two-column table and a one-column row. -/
theorem claim6_witness :
    (⟨false, true, ',', 2, [⟨[⟨['a']⟩, ⟨['b']⟩]⟩]⟩ : Csv).IsWidthInitialized = true
  ∧ (⟨[⟨['c']⟩]⟩ : Row).Width ≠ (⟨false, true, ',', 2, [⟨[⟨['a']⟩, ⟨['b']⟩]⟩]⟩ : Csv).AllowedWidth
  ∧ (⟨false, true, ',', 2, [⟨[⟨['a']⟩, ⟨['b']⟩]⟩]⟩ : Csv).AddDataRow ⟨[⟨['c']⟩]⟩
      = (⟨false, true, ',', 2, [⟨[⟨['a']⟩, ⟨['b']⟩]⟩]⟩, some .invalidRowWidth) :=
  ⟨by decide, by decide,
    claim6_width_mismatch_rejected _ _ (by decide) (by decide)⟩

/-- C7: AddHeaderRow succeeds exactly on a table with zero rows; on a
nonempty table it returns the header-after-data error leaving the table
unchanged, and on success it appends the row as the single first row and
sets the header flag. -/
theorem claim7_header_only_first (t : Csv) (r : Row) :
    ((t.AddHeaderRow r).2 = none ↔ t.rows = [])
  ∧ (t.rows ≠ [] → t.AddHeaderRow r = (t, some .invalidHeaderRowInsertion))
  ∧ (t.rows = [] → (t.AddHeaderRow r).1.rows = [r]
      ∧ (t.AddHeaderRow r).1.has_header_row = true) := by
  obtain ⟨f1, f2, f3, f4, rows⟩ := t
  cases rows with
  | nil =>
    rw [addHeaderRow_of_empty]
    refine ⟨by simp, fun h => absurd rfl h, fun _ => ⟨rfl, rfl⟩⟩
  | cons r0 rs =>
    rw [addHeaderRow_of_nonempty]
    refine ⟨by simp, fun _ => rfl, fun h => absurd h (by simp)⟩

/-- Witness for C7: success on an empty table, failure on a one-row table. -/
theorem claim7_witness :
    (((Csv.new ',').AddHeaderRow ⟨[⟨['h']⟩]⟩).2 = none ↔ (Csv.new ',').rows = [])
  ∧ ((⟨false, true, ',', 1, [⟨[⟨['a']⟩]⟩]⟩ : Csv).rows ≠ []
      → (⟨false, true, ',', 1, [⟨[⟨['a']⟩]⟩]⟩ : Csv).AddHeaderRow ⟨[⟨['h']⟩]⟩
        = (⟨false, true, ',', 1, [⟨[⟨['a']⟩]⟩]⟩, some .invalidHeaderRowInsertion))
  ∧ (((Csv.new ',').AddHeaderRow ⟨[⟨['h']⟩]⟩).1.rows = [⟨[⟨['h']⟩]⟩]
      ∧ ((Csv.new ',').AddHeaderRow ⟨[⟨['h']⟩]⟩).1.has_header_row = true) :=
  ⟨(claim7_header_only_first (Csv.new ',') ⟨[⟨['h']⟩]⟩).1,
    (claim7_header_only_first _ _).2.1,
    (claim7_header_only_first (Csv.new ',') ⟨[⟨['h']⟩]⟩).2.2 rfl⟩

/-! Serializer shape lemmas. -/

theorem fieldsOutput_eq_intercalate (sep : Char) (fs : List Field) :
    fieldsOutput sep fs
      = List.intercalate [sep] (fs.map fun f => GetValueEscaped sep f.value) := by
  induction fs with
  | nil => rfl
  | cons f rest ih =>
    cases rest with
    | nil => simp [fieldsOutput, List.intercalate, List.intersperse]
    | cons f2 rest2 =>
      rw [show fieldsOutput sep (f :: f2 :: rest2)
            = GetValueEscaped sep f.value ++ sep :: fieldsOutput sep (f2 :: rest2) from rfl, ih]
      simp [List.intercalate, List.intersperse]

theorem rowsOutput_eq_flatten (sep : Char) (rows : List Row) :
    rowsOutput sep rows
      = (rows.map (fun r => fieldsOutput sep r.fields ++ ['\n'])).flatten := by
  induction rows with
  | nil => rfl
  | cons r rest ih =>
    rw [show rowsOutput sep (r :: rest)
          = fieldsOutput sep r.fields ++ '\n' :: rowsOutput sep rest from rfl, ih]
    simp

theorem rowsOutput_getLast? (sep : Char) (rows : List Row) (h : rows ≠ []) :
    (rowsOutput sep rows).getLast? = some '\n' := by
  induction rows with
  | nil => exact absurd rfl h
  | cons r rest ih =>
    cases rest with
    | nil => exact List.getLast?_concat _
    | cons r2 rest2 =>
      rw [show rowsOutput sep (r :: r2 :: rest2)
            = fieldsOutput sep r.fields ++ ('\n' :: rowsOutput sep (r2 :: rest2)) from rfl,
        List.getLast?_append,
        show ('\n' :: rowsOutput sep (r2 :: rest2) : Str)
            = ['\n'] ++ rowsOutput sep (r2 :: rest2) from rfl,
        List.getLast?_append, ih (by simp)]
      rfl

/-- C8: the serializer emits, row by row in order, the escaped fields
joined by the separator with no separator after the last field, and a line
feed after every row including the last, so a nonempty table serializes to
a stream whose final character is a line feed. -/
theorem claim8_serialize_shape (c : Csv) :
    c.SaveToFile
      = (c.rows.map (fun r =>
          List.intercalate [c.separator]
            (r.fields.map fun f => GetValueEscaped c.separator f.value) ++ ['\n'])).flatten
  ∧ (c.rows ≠ [] → c.SaveToFile.getLast? = some '\n') := by
  constructor
  · rw [Csv.SaveToFile, rowsOutput_eq_flatten]
    have hfun : (fun (r : Row) => fieldsOutput c.separator r.fields ++ ['\n'])
        = fun r => List.intercalate [c.separator]
            (r.fields.map fun f => GetValueEscaped c.separator f.value) ++ ['\n'] := by
      funext r
      rw [fieldsOutput_eq_intercalate]
    rw [hfun]
  · intro h
    rw [Csv.SaveToFile]
    exact rowsOutput_getLast? c.separator c.rows h

/-- Witness for C8 at a concrete two-row table. -/
theorem claim8_witness :
    (⟨false, true, ',', 2, [⟨[⟨['a']⟩, ⟨['b']⟩]⟩, ⟨[⟨['c']⟩, ⟨['d']⟩]⟩]⟩ : Csv).rows ≠ []
  ∧ (⟨false, true, ',', 2, [⟨[⟨['a']⟩, ⟨['b']⟩]⟩, ⟨[⟨['c']⟩, ⟨['d']⟩]⟩]⟩ : Csv).SaveToFile
      = ((⟨false, true, ',', 2, [⟨[⟨['a']⟩, ⟨['b']⟩]⟩, ⟨[⟨['c']⟩, ⟨['d']⟩]⟩]⟩ : Csv).rows.map
          (fun r => List.intercalate [','] (r.fields.map fun f => GetValueEscaped ',' f.value)
            ++ ['\n'])).flatten
  ∧ (⟨false, true, ',', 2, [⟨[⟨['a']⟩, ⟨['b']⟩]⟩, ⟨[⟨['c']⟩, ⟨['d']⟩]⟩]⟩ : Csv).SaveToFile.getLast?
      = some '\n' :=
  ⟨by decide,
    (claim8_serialize_shape ⟨false, true, ',', 2, [⟨[⟨['a']⟩, ⟨['b']⟩]⟩, ⟨[⟨['c']⟩, ⟨['d']⟩]⟩]⟩).1,
    (claim8_serialize_shape ⟨false, true, ',', 2, [⟨[⟨['a']⟩, ⟨['b']⟩]⟩, ⟨[⟨['c']⟩, ⟨['d']⟩]⟩]⟩).2
      (by decide)⟩

/-! Parser loop lemmas. -/

theorem parseChars_append (sep : Char) (hdr : Bool) (xs ys : Str) (st : ParseState) :
    parseChars sep hdr st (xs ++ ys)
      = match parseChars sep hdr st xs with
        | .ok st2 => parseChars sep hdr st2 ys
        | .error e => .error e := by
  induction xs generalizing st with
  | nil => rfl
  | cons b rest ih =>
    show parseChars sep hdr st (b :: (rest ++ ys)) = _
    cases h : parseStep sep hdr st b with
    | ok st2 => simp [parseChars, h, ih]
    | error e => simp [parseChars, h]

theorem parseStep_csv_of_ne_newline (sep : Char) (hdr : Bool) {b : Char} (hb : b ≠ '\n')
    (st : ParseState) :
    ∃ st2, parseStep sep hdr st b = .ok st2 ∧ st2.csv = st.csv := by
  unfold parseStep
  by_cases h1 : (b == '"') = true
  · rw [if_pos h1]
    exact ⟨_, rfl, rfl⟩
  · rw [if_neg h1]
    by_cases h2 : (b == sep) = true
    · rw [if_pos h2]
      by_cases hq : st.is_quoted = true
      · rw [if_pos hq]
        exact ⟨_, rfl, rfl⟩
      · rw [if_neg hq]
        exact ⟨_, rfl, rfl⟩
    · rw [if_neg h2]
      have h3 : (b == '\n') = false := by simp [hb]
      rw [if_neg (by rw [h3]; exact Bool.false_ne_true)]
      exact ⟨_, rfl, rfl⟩

theorem parseChars_csv_of_no_newline (sep : Char) (hdr : Bool) {l : Str}
    (h : ∀ b ∈ l, b ≠ '\n') (st : ParseState) :
    ∃ st2, parseChars sep hdr st l = .ok st2 ∧ st2.csv = st.csv := by
  induction l generalizing st with
  | nil => exact ⟨st, rfl, rfl⟩
  | cons b rest ih =>
    obtain ⟨st1, hs, hc⟩ := parseStep_csv_of_ne_newline sep hdr (h b (List.mem_cons_self b rest)) st
    obtain ⟨st2, hs2, hc2⟩ := ih (fun x hx => h x (List.mem_cons_of_mem b hx)) st1
    refine ⟨st2, ?_, by rw [hc2, hc]⟩
    simp [parseChars, hs, hs2]

/-- C9: bytes after the final line feed never reach the table: parsing any
input whose trailing part contains no line feed yields exactly the table
parsed from the part up to and including the final line feed; the trailing
field and row stay in the local accumulators and are discarded. -/
theorem claim9_trailing_lost (p tailPart : Str) (sep : Char) (hdr : Bool)
    (h : ∀ b ∈ tailPart, b ≠ '\n') :
    Parse (p ++ tailPart) sep hdr = Parse p sep hdr := by
  unfold Parse
  rw [parseChars_append]
  cases hp : parseChars sep hdr ParseState.init p with
  | error e => rfl
  | ok st =>
    obtain ⟨st2, hs, hc⟩ := parseChars_csv_of_no_newline sep hdr h st
    simp [hs, Except.map, hc]

/-- Witness for C9: a c comma tail after the last line feed is dropped. -/
theorem claim9_witness :
    (∀ b ∈ (['c', ','] : Str), b ≠ '\n')
  ∧ Parse ((['a', ',', 'b', '\n'] : Str) ++ ['c', ',']) ',' false
      = Parse ['a', ',', 'b', '\n'] ',' false :=
  ⟨by decide, claim9_trailing_lost ['a', ',', 'b', '\n'] ['c', ','] ',' false (by decide)⟩

/-- C1, part refuted: the table holding the single data row whose only
field value is one quote character is built by a successful AddDataRow
call, serializes to a quote byte followed by a line feed, and parsing that
stream back (header flag matching) yields a table with zero rows instead
of one: the quote byte toggles the parser quote flag, the line feed is
then treated as field data, and no row is ever committed. -/
theorem claim1_counterexample :
    (Csv.new ',').AddDataRow ⟨[⟨['"']⟩]⟩ = (⟨false, true, ',', 1, [⟨[⟨['"']⟩]⟩]⟩, none)
  ∧ Except.map Csv.RowCount
      (Parse (⟨false, true, ',', 1, [⟨[⟨['"']⟩]⟩]⟩ : Csv).SaveToFile ','
        (⟨false, true, ',', 1, [⟨[⟨['"']⟩]⟩]⟩ : Csv).has_header_row) = .ok 0
  ∧ (⟨false, true, ',', 1, [⟨[⟨['"']⟩]⟩]⟩ : Csv).RowCount = 1 := by
  refine ⟨by decide, by decide, by decide⟩

/-! Parser single-step equation lemmas. -/

theorem contains_false_forall {v : Str} {a : Char} (h : v.contains a = false) :
    ∀ x ∈ v, (x == a) = false := by
  intro x hx
  rcases hb : x == a
  · rfl
  · have hxa : x = a := eq_of_beq hb
    subst hxa
    rw [show v.contains x = List.elem x v from rfl, List.elem_eq_true_of_mem hx] at h
    exact absurd h (by simp)

theorem parseStep_quote (sep : Char) (hdr : Bool) (st : ParseState) :
    parseStep sep hdr st '"'
      = .ok ⟨(if st.field_value.isEmpty || startsWithQuote st.field_value then
            !st.is_quoted else st.is_quoted),
          st.field_value ++ ['"'], st.row, st.csv⟩ := by
  unfold parseStep
  rw [if_pos (show (('"' : Char) == '"') = true from rfl)]

theorem parseStep_plain (sep : Char) (hdr : Bool) {b : Char} (hb1 : (b == '"') = false)
    (hb2 : (b == sep) = false) (hb3 : (b == '\n') = false) (st : ParseState) :
    parseStep sep hdr st b = .ok ⟨st.is_quoted, st.field_value ++ [b], st.row, st.csv⟩ := by
  unfold parseStep
  rw [if_neg (by rw [hb1]; exact Bool.false_ne_true),
    if_neg (by rw [hb2]; exact Bool.false_ne_true),
    if_neg (by rw [hb3]; exact Bool.false_ne_true)]

theorem parseStep_quoted_any (sep : Char) (hdr : Bool) {b : Char} (hb1 : (b == '"') = false)
    (st : ParseState) (hq : st.is_quoted = true) :
    parseStep sep hdr st b = .ok ⟨true, st.field_value ++ [b], st.row, st.csv⟩ := by
  unfold parseStep
  rw [hq]
  rw [if_neg (by rw [hb1]; exact Bool.false_ne_true)]
  by_cases h2 : (b == sep) = true
  · rw [if_pos h2, if_pos (show (true : Bool) = true from rfl)]
  · rw [if_neg h2]
    by_cases h3 : (b == '\n') = true
    · rw [if_pos h3, if_pos (show (true : Bool) = true from rfl)]
    · rw [if_neg h3]

theorem parseStep_sep_unquoted (sep : Char) (hdr : Bool) (hsepq : (sep == '"') = false)
    (st : ParseState) (hq : st.is_quoted = false) :
    parseStep sep hdr st sep
      = .ok ⟨false, [], st.row.AddValue ⟨SanitizeCellValue st.field_value⟩, st.csv⟩ := by
  unfold parseStep
  rw [hq]
  rw [if_neg (by rw [hsepq]; exact Bool.false_ne_true),
    if_pos (show (sep == sep) = true from by simp), if_neg Bool.false_ne_true]

theorem parseStep_newline_unquoted (sep : Char) (hdr : Bool) (hnsep : (('\n' : Char) == sep) = false)
    (st : ParseState) (hq : st.is_quoted = false) :
    parseStep sep hdr st '\n'
      = (match (if st.csv.Empty && hdr then
            st.csv.AddHeaderRow (st.row.AddValue ⟨SanitizeCellValue st.field_value⟩)
          else st.csv.AddDataRow (st.row.AddValue ⟨SanitizeCellValue st.field_value⟩)) with
         | (csv2, none) => .ok ⟨false, [], ⟨[]⟩, csv2⟩
         | (_, some e) => .error e) := by
  unfold parseStep
  rw [hq]
  rw [if_neg (by decide), if_neg (by rw [hnsep]; exact Bool.false_ne_true),
    if_pos (show (('\n' : Char) == '\n') = true from rfl), if_neg Bool.false_ne_true]
  rfl

/-! Parser run lemmas for whole escaped fields, lines and tables. -/

theorem parse_plain_run (sep : Char) (hdr : Bool) :
    ∀ l : Str, (∀ x ∈ l, (x == '"') = false ∧ (x == sep) = false ∧ (x == '\n') = false) →
    ∀ st : ParseState,
      parseChars sep hdr st l = .ok ⟨st.is_quoted, st.field_value ++ l, st.row, st.csv⟩ := by
  intro l
  induction l with
  | nil =>
    intro _ st
    simp [parseChars]
  | cons b rest ih =>
    intro h st
    obtain ⟨hb1, hb2, hb3⟩ := h b (List.mem_cons_self b rest)
    have hrest := fun x hx => h x (List.mem_cons_of_mem b hx)
    rw [show parseChars sep hdr st (b :: rest)
          = (match parseStep sep hdr st b with
             | .ok st2 => parseChars sep hdr st2 rest
             | .error e => .error e) from rfl,
      parseStep_plain sep hdr hb1 hb2 hb3 st]
    rw [show (match (Except.ok ⟨st.is_quoted, st.field_value ++ [b], st.row, st.csv⟩ :
          Except CsvError ParseState) with
        | .ok st2 => parseChars sep hdr st2 rest
        | .error e => .error e)
        = parseChars sep hdr ⟨st.is_quoted, st.field_value ++ [b], st.row, st.csv⟩ rest from rfl]
    rw [ih hrest]
    simp

theorem parse_quoted_run (sep : Char) (hdr : Bool) :
    ∀ l : Str, (∀ x ∈ l, (x == '"') = false) →
    ∀ st : ParseState, st.is_quoted = true →
      parseChars sep hdr st l = .ok ⟨true, st.field_value ++ l, st.row, st.csv⟩ := by
  intro l
  induction l with
  | nil =>
    intro _ st hq
    simp only [parseChars, List.append_nil]
    rw [← hq]
  | cons b rest ih =>
    intro h st hq
    have hb1 := h b (List.mem_cons_self b rest)
    have hrest := fun x hx => h x (List.mem_cons_of_mem b hx)
    rw [show parseChars sep hdr st (b :: rest)
          = (match parseStep sep hdr st b with
             | .ok st2 => parseChars sep hdr st2 rest
             | .error e => .error e) from rfl,
      parseStep_quoted_any sep hdr hb1 st hq]
    rw [show (match (Except.ok ⟨true, st.field_value ++ [b], st.row, st.csv⟩ :
          Except CsvError ParseState) with
        | .ok st2 => parseChars sep hdr st2 rest
        | .error e => .error e)
        = parseChars sep hdr ⟨true, st.field_value ++ [b], st.row, st.csv⟩ rest from rfl]
    rw [ih hrest ⟨true, st.field_value ++ [b], st.row, st.csv⟩ rfl]
    simp

theorem parseStep_quote_start (sep : Char) (hdr : Bool) (row : Row) (csv : Csv) :
    parseStep sep hdr ⟨false, [], row, csv⟩ '"' = .ok ⟨true, ['"'], row, csv⟩ := by
  rw [parseStep_quote]
  rfl

theorem parseStep_quote_close (sep : Char) (hdr : Bool) (v : Str) (row : Row) (csv : Csv) :
    parseStep sep hdr ⟨true, ['"'] ++ v, row, csv⟩ '"'
      = .ok ⟨false, (['"'] ++ v) ++ ['"'], row, csv⟩ := by
  rw [parseStep_quote]
  rfl

theorem parse_escaped_field (sep : Char) (hdr : Bool) (v : Str) (hv : ∀ x ∈ v, x ≠ '"')
    (row : Row) (csv : Csv) :
    parseChars sep hdr ⟨false, [], row, csv⟩ (GetValueEscaped sep v)
      = .ok ⟨false, GetValueEscaped sep v, row, csv⟩ := by
  have hvb : ∀ x ∈ v, (x == '"') = false := by
    intro x hx
    simp [hv x hx]
  by_cases hw : needsWrap sep v = true
  · have hesc : GetValueEscaped sep v = ('"' :: v) ++ ['"'] := by
      unfold GetValueEscaped
      rw [if_pos hw, show ('"' :: v ++ ['"'] : Str) = ('"' :: v) ++ ['"'] from rfl,
        doubleInterior_decomp, doubleAll_of_no_quote hv]
    rw [hesc]
    rw [show (('"' :: v) ++ ['"'] : Str) = '"' :: (v ++ ['"']) from rfl]
    rw [show parseChars sep hdr ⟨false, [], row, csv⟩ ('"' :: (v ++ ['"']))
          = (match parseStep sep hdr ⟨false, [], row, csv⟩ '"' with
             | .ok st2 => parseChars sep hdr st2 (v ++ ['"'])
             | .error e => .error e) from rfl,
      parseStep_quote_start]
    rw [show (match (Except.ok ⟨true, ['"'], row, csv⟩ : Except CsvError ParseState) with
        | .ok st2 => parseChars sep hdr st2 (v ++ ['"'])
        | .error e => .error e)
        = parseChars sep hdr ⟨true, ['"'], row, csv⟩ (v ++ ['"']) from rfl]
    rw [parseChars_append sep hdr v ['"'] ⟨true, ['"'], row, csv⟩,
      parse_quoted_run sep hdr v hvb ⟨true, ['"'], row, csv⟩ rfl]
    rw [show (match (Except.ok ⟨true, ['"'] ++ v, row, csv⟩ : Except CsvError ParseState) with
        | .ok st2 => parseChars sep hdr st2 ['"']
        | .error e => .error e)
        = parseChars sep hdr ⟨true, ['"'] ++ v, row, csv⟩ ['"'] from rfl]
    rw [show parseChars sep hdr ⟨true, ['"'] ++ v, row, csv⟩ ['"']
          = (match parseStep sep hdr ⟨true, ['"'] ++ v, row, csv⟩ '"' with
             | .ok st2 => parseChars sep hdr st2 []
             | .error e => .error e) from rfl,
      parseStep_quote_close]
    rfl
  · have hw2 : needsWrap sep v = false := by
      rcases hx : needsWrap sep v
      · rfl
      · exact absurd hx hw
    have hesc : GetValueEscaped sep v = v := by
      unfold GetValueEscaped
      rw [if_neg (by rw [hw2]; exact Bool.false_ne_true), doubleInterior_of_no_quote hv]
    rw [needsWrap, startsWithQuote_false_of_no_quote hv, endsWithQuote_false_of_no_quote hv] at hw2
    simp only [Bool.not_false, Bool.and_true] at hw2
    have hns : v.contains sep = false ∧ v.contains '\n' = false := by
      rcases h1 : v.contains sep
      · rcases h2 : v.contains '\n'
        · exact ⟨rfl, rfl⟩
        · rw [h1, h2] at hw2
          exact absurd hw2 (by simp)
      · rw [h1] at hw2
        exact absurd hw2 (by simp)
    have hall : ∀ x ∈ v, (x == '"') = false ∧ (x == sep) = false ∧ (x == '\n') = false := by
      intro x hx
      exact ⟨hvb x hx, contains_false_forall hns.1 x hx, contains_false_forall hns.2 x hx⟩
    rw [hesc, parse_plain_run sep hdr v hall ⟨false, [], row, csv⟩]
    rfl

theorem sanitize_escape_no_quote (sep : Char) {v : Str} (hv : ∀ x ∈ v, x ≠ '"') :
    SanitizeCellValue (GetValueEscaped sep v) = v := by
  apply sanitize_escape_core
  rw [startsWithQuote_false_of_no_quote hv]
  rfl

theorem commit_match_run (sep : Char) (hdr : Bool) (res : Csv × Option CsvError) :
    (match (match res with
       | (csv2, none) => (Except.ok ⟨false, [], ⟨[]⟩, csv2⟩ : Except CsvError ParseState)
       | (_, some e) => .error e) with
     | .ok st2 => parseChars sep hdr st2 []
     | .error e => .error e)
    = (match res with
       | (csv2, none) => (Except.ok ⟨false, [], ⟨[]⟩, csv2⟩ : Except CsvError ParseState)
       | (_, some e) => .error e) := by
  rcases res with ⟨csv2, oe⟩
  cases oe
  · rfl
  · rfl

theorem parse_row_line (sep : Char) (hdr : Bool) (hsepq : (sep == '"') = false)
    (hnsep : (('\n' : Char) == sep) = false) :
    ∀ fs : List Field, fs ≠ [] → (∀ f ∈ fs, ∀ x ∈ f.value, x ≠ '"') →
    ∀ (row : Row) (csv : Csv),
    parseChars sep hdr ⟨false, [], row, csv⟩ (fieldsOutput sep fs ++ ['\n'])
      = (match (if csv.Empty && hdr then csv.AddHeaderRow ⟨row.fields ++ fs⟩
            else csv.AddDataRow ⟨row.fields ++ fs⟩) with
         | (csv2, none) => (Except.ok ⟨false, [], ⟨[]⟩, csv2⟩ : Except CsvError ParseState)
         | (_, some e) => .error e) := by
  intro fs
  induction fs with
  | nil => intro h; exact absurd rfl h
  | cons f rest ih =>
    intro _ hval row csv
    have hf : ∀ x ∈ f.value, x ≠ '"' := hval f (List.mem_cons_self f rest)
    cases rest with
    | nil =>
      rw [show fieldsOutput sep [f] = GetValueEscaped sep f.value from rfl]
      rw [parseChars_append, parse_escaped_field sep hdr f.value hf row csv]
      rw [show (match (Except.ok ⟨false, GetValueEscaped sep f.value, row, csv⟩ :
            Except CsvError ParseState) with
          | .ok st2 => parseChars sep hdr st2 ['\n']
          | .error e => .error e)
          = parseChars sep hdr ⟨false, GetValueEscaped sep f.value, row, csv⟩ ['\n'] from rfl]
      rw [show parseChars sep hdr ⟨false, GetValueEscaped sep f.value, row, csv⟩ ['\n']
            = (match parseStep sep hdr ⟨false, GetValueEscaped sep f.value, row, csv⟩ '\n' with
               | .ok st2 => parseChars sep hdr st2 []
               | .error e => .error e) from rfl,
        parseStep_newline_unquoted sep hdr hnsep _ rfl]
      rw [show (⟨false, GetValueEscaped sep f.value, row, csv⟩ : ParseState).row.AddValue
            ⟨SanitizeCellValue (⟨false, GetValueEscaped sep f.value, row, csv⟩ :
              ParseState).field_value⟩
          = row.AddValue ⟨SanitizeCellValue (GetValueEscaped sep f.value)⟩ from rfl,
        sanitize_escape_no_quote sep hf]
      rw [commit_match_run]
      rfl
    | cons f2 rest2 =>
      have hval2 : ∀ g ∈ f2 :: rest2, ∀ x ∈ g.value, x ≠ '"' :=
        fun g hg => hval g (List.mem_cons_of_mem f hg)
      rw [show fieldsOutput sep (f :: f2 :: rest2)
            = GetValueEscaped sep f.value ++ sep :: fieldsOutput sep (f2 :: rest2) from rfl]
      rw [List.append_assoc, show ((sep :: fieldsOutput sep (f2 :: rest2)) ++ ['\n'] : Str)
            = sep :: (fieldsOutput sep (f2 :: rest2) ++ ['\n']) from rfl]
      rw [parseChars_append, parse_escaped_field sep hdr f.value hf row csv]
      rw [show (match (Except.ok ⟨false, GetValueEscaped sep f.value, row, csv⟩ :
            Except CsvError ParseState) with
          | .ok st2 => parseChars sep hdr st2 (sep :: (fieldsOutput sep (f2 :: rest2) ++ ['\n']))
          | .error e => .error e)
          = parseChars sep hdr ⟨false, GetValueEscaped sep f.value, row, csv⟩
              (sep :: (fieldsOutput sep (f2 :: rest2) ++ ['\n'])) from rfl]
      rw [show parseChars sep hdr ⟨false, GetValueEscaped sep f.value, row, csv⟩
              (sep :: (fieldsOutput sep (f2 :: rest2) ++ ['\n']))
            = (match parseStep sep hdr ⟨false, GetValueEscaped sep f.value, row, csv⟩ sep with
               | .ok st2 => parseChars sep hdr st2 (fieldsOutput sep (f2 :: rest2) ++ ['\n'])
               | .error e => .error e) from rfl,
        parseStep_sep_unquoted sep hdr hsepq _ rfl]
      rw [show (⟨false, GetValueEscaped sep f.value, row, csv⟩ : ParseState).row.AddValue
            ⟨SanitizeCellValue (⟨false, GetValueEscaped sep f.value, row, csv⟩ :
              ParseState).field_value⟩
          = row.AddValue ⟨SanitizeCellValue (GetValueEscaped sep f.value)⟩ from rfl,
        sanitize_escape_no_quote sep hf]
      rw [show (match (Except.ok ⟨false, [], row.AddValue f, csv⟩ :
            Except CsvError ParseState) with
          | .ok st2 => parseChars sep hdr st2 (fieldsOutput sep (f2 :: rest2) ++ ['\n'])
          | .error e => .error e)
          = parseChars sep hdr ⟨false, [], row.AddValue f, csv⟩
              (fieldsOutput sep (f2 :: rest2) ++ ['\n']) from rfl]
      rw [ih (by simp) hval2 (row.AddValue f) csv]
      rw [show (row.AddValue f).fields = row.fields ++ [f] from rfl, List.append_assoc,
        List.singleton_append]

theorem commit_ok (res : Csv × Option CsvError) (c2 : Csv) (h : res = (c2, none)) :
    (match res with
     | (csv2, none) => (Except.ok ⟨false, [], ⟨[]⟩, csv2⟩ : Except CsvError ParseState)
     | (_, some e) => .error e) = .ok ⟨false, [], ⟨[]⟩, c2⟩ := by
  subst h
  rfl

theorem parse_rows (sep : Char) (hdr : Bool) (hsepq : (sep == '"') = false)
    (hnsep : (('\n' : Char) == sep) = false) (W : Nat) :
    ∀ rs : List Row,
      (∀ r ∈ rs, r.fields ≠ [] ∧ r.Width = W ∧ ∀ f ∈ r.fields, ∀ x ∈ f.value, x ≠ '"') →
    ∀ acc : Csv,
      (acc.rows = [] → acc.is_width_initialized = false) →
      (acc.rows ≠ [] → acc.is_width_initialized = true ∧ acc.allowed_width = W) →
    ∃ acc2 : Csv,
      parseChars sep hdr ⟨false, [], ⟨[]⟩, acc⟩ (rowsOutput sep rs) = .ok ⟨false, [], ⟨[]⟩, acc2⟩
      ∧ acc2.rows = acc.rows ++ rs
      ∧ acc2.has_header_row = (acc.has_header_row || (hdr && acc.rows.isEmpty && !rs.isEmpty))
      ∧ (acc2.rows = [] → acc2.is_width_initialized = false)
      ∧ (acc2.rows ≠ [] → acc2.is_width_initialized = true ∧ acc2.allowed_width = W) := by
  intro rs
  induction rs with
  | nil =>
    intro _ acc hinv1 hinv2
    refine ⟨acc, rfl, by simp, by simp, hinv1, hinv2⟩
  | cons r rest ih =>
    intro hval acc hinv1 hinv2
    obtain ⟨hne, hW, hqf⟩ := hval r (List.mem_cons_self r rest)
    have hvalr := fun r2 h2 => hval r2 (List.mem_cons_of_mem r h2)
    have key : ∃ acc1 : Csv,
        (if acc.Empty && hdr then acc.AddHeaderRow r else acc.AddDataRow r) = (acc1, none)
        ∧ acc1.rows = acc.rows ++ [r]
        ∧ acc1.has_header_row = (acc.has_header_row || (hdr && acc.rows.isEmpty))
        ∧ acc1.is_width_initialized = true
        ∧ acc1.allowed_width = W := by
      obtain ⟨a1, a2, a3, a4, arows⟩ := acc
      cases arows with
      | nil =>
        have ha2 : a2 = false := hinv1 rfl
        subst ha2
        cases hdr with
        | false =>
          refine ⟨⟨a1, true, a3, r.Width, [r]⟩, ?_, rfl, by simp, rfl, hW⟩
          rw [if_neg (show ¬((Csv.Empty ⟨a1, false, a3, a4, []⟩ && false) = true) from by simp),
            addDataRow_uninit]
          rfl
        | true =>
          refine ⟨⟨true, true, a3, r.Width, [r]⟩, ?_, rfl, by simp, rfl, hW⟩
          rw [if_pos (show (Csv.Empty ⟨a1, false, a3, a4, []⟩ && true) = true from rfl),
            addHeaderRow_of_empty]
          rfl
      | cons r0 rs0 =>
        have ha2 : a2 = true := (hinv2 (by simp)).1
        have ha4 : a4 = W := (hinv2 (by simp)).2
        subst ha2
        refine ⟨⟨a1, true, a3, a4, (r0 :: rs0) ++ [r]⟩, ?_, rfl, by simp, rfl, ha4⟩
        rw [if_neg (show ¬((Csv.Empty ⟨a1, true, a3, a4, r0 :: rs0⟩ && hdr) = true) from
            by simp [Csv.Empty]),
          addDataRow_init_ok a1 a3 a4 (r0 :: rs0) r (by rw [hW]; exact ha4.symm)]
    obtain ⟨acc1, hcommit, hrows1, hflag1, hwi1, haw1⟩ := key
    rw [show rowsOutput sep (r :: rest)
          = fieldsOutput sep r.fields ++ '\n' :: rowsOutput sep rest from rfl,
      List.append_cons]
    rw [parseChars_append, parse_row_line sep hdr hsepq hnsep r.fields hne hqf ⟨[]⟩ acc]
    rw [show (⟨(⟨[]⟩ : Row).fields ++ r.fields⟩ : Row) = r from by cases r; rfl]
    rw [commit_ok _ _ hcommit]
    rw [show (match (Except.ok ⟨false, [], ⟨[]⟩, acc1⟩ : Except CsvError ParseState) with
        | .ok st2 => parseChars sep hdr st2 (rowsOutput sep rest)
        | .error e => .error e)
        = parseChars sep hdr ⟨false, [], ⟨[]⟩, acc1⟩ (rowsOutput sep rest) from rfl]
    have hne1 : acc1.rows ≠ [] := by
      rw [hrows1]
      cases acc.rows <;> simp
    obtain ⟨acc2, hrun, hrows2, hflag2, hinv2a, hinv2b⟩ :=
      ih hvalr acc1 (fun h => absurd h hne1) (fun _ => ⟨hwi1, haw1⟩)
    refine ⟨acc2, hrun, ?_, ?_, hinv2a, hinv2b⟩
    · rw [hrows2, hrows1, List.append_assoc, List.singleton_append]
    · have hfe : acc1.rows.isEmpty = false := by
        cases hx : acc1.rows
        · exact absurd hx hne1
        · rfl
      rw [hflag2, hfe, hflag1]
      simp

/-- Structural invariant of tables built through successful append calls:
an empty table has no header flag and no initialized width, a nonempty
table has its width initialized, and every stored row has exactly the
allowed width. -/
theorem built_inv {t : Csv} (hb : Built t) :
    (t.rows = [] → t.is_width_initialized = false ∧ t.has_header_row = false)
  ∧ (t.rows ≠ [] → t.is_width_initialized = true)
  ∧ (∀ r ∈ t.rows, r.Width = t.allowed_width) := by
  induction hb with
  | new sep =>
    exact ⟨fun _ => ⟨rfl, rfl⟩, fun h => absurd rfl h, by simp [Csv.new]⟩
  | data hb heq ih =>
    obtain ⟨hcond, hc2⟩ := addDataRow_success_inv heq
    subst hc2
    rename_i c r
    by_cases hw : c.is_width_initialized = true
    · have hinit : c.InitializeWidth r.Width = c := by
        unfold Csv.InitializeWidth
        rw [if_pos hw]
      rw [hinit]
      have hWr : r.Width = c.allowed_width := by
        rw [show c.IsWidthInitialized = c.is_width_initialized from rfl, hw] at hcond
        simp only [Bool.true_and] at hcond
        exact (bne_eq_false_iff_eq.mp hcond).symm
      refine ⟨?_, ?_, ?_⟩
      · intro h
        exact absurd h (by simp [Csv.PushRow])
      · intro _
        exact hw
      · intro r2 hr2
        rw [show (c.PushRow r).rows = c.rows ++ [r] from rfl] at hr2
        rw [show (c.PushRow r).allowed_width = c.allowed_width from rfl]
        rcases List.mem_append.mp hr2 with h | h
        · exact ih.2.2 r2 h
        · rw [List.mem_singleton.mp h]
          exact hWr
    · have hwf : c.is_width_initialized = false := by
        rcases hx : c.is_width_initialized
        · rfl
        · exact absurd hx hw
      have hce : c.rows = [] := by
        rcases hx : c.rows with _ | ⟨r0, rs0⟩
        · rfl
        · exact absurd (ih.2.1 (by rw [hx]; simp)) hw
      have hinit : c.InitializeWidth r.Width
          = { c with allowed_width := r.Width, is_width_initialized := true } := by
        unfold Csv.InitializeWidth
        rw [if_neg (by rw [hwf]; exact Bool.false_ne_true)]
      rw [hinit]
      refine ⟨?_, ?_, ?_⟩
      · intro h
        exact absurd h (by simp [Csv.PushRow])
      · intro _
        rfl
      · intro r2 hr2
        rw [show ((({ c with allowed_width := r.Width, is_width_initialized := true } :
              Csv).PushRow r).rows) = c.rows ++ [r] from rfl, hce, List.nil_append] at hr2
        rw [List.mem_singleton.mp hr2]
        rfl
  | header hb heq ih =>
    obtain ⟨hrows, hc2⟩ := addHeaderRow_success_inv heq
    subst hc2
    rename_i c r
    have hwf : c.is_width_initialized = false := (ih.1 hrows).1
    have hinit : c.InitializeWidth r.Width
        = { c with allowed_width := r.Width, is_width_initialized := true } := by
      unfold Csv.InitializeWidth
      rw [if_neg (by rw [hwf]; exact Bool.false_ne_true)]
    rw [hinit]
    refine ⟨?_, ?_, ?_⟩
    · intro h
      exact absurd h (by simp [Csv.PushRow, Csv.SetHasHeaderRow])
    · intro _
      rfl
    · intro r2 hr2
      rw [show (((({ c with allowed_width := r.Width, is_width_initialized := true } :
            Csv).PushRow r).SetHasHeaderRow).rows) = c.rows ++ [r] from rfl, hrows,
        List.nil_append] at hr2
      rw [List.mem_singleton.mp hr2]
      rfl

/-- C1, amended: for every table built only through successful
AddHeaderRow and AddDataRow calls whose separator is neither the quote
character nor the line feed, whose rows are all nonempty, and whose field
values contain no quote character, serializing and then parsing with the
matching header flag reproduces the rows and the header flag exactly.
The counterexample theorem shows why quote characters in values (and
width-zero rows, which reparse as a single empty field) must be excluded. -/
theorem claim1_roundtrip (t : Csv) (hb : Built t) (hq : t.separator ≠ '"')
    (hn : t.separator ≠ '\n')
    (hvals : ∀ r ∈ t.rows, r.fields ≠ [] ∧ ∀ f ∈ r.fields, ∀ x ∈ f.value, x ≠ '"') :
    Except.map (fun c => (c.rows, c.has_header_row))
        (Parse t.SaveToFile t.separator t.has_header_row)
      = .ok (t.rows, t.has_header_row) := by
  obtain ⟨hempty, hnonempty, hwidths⟩ := built_inv hb
  by_cases hE : t.rows = []
  · obtain ⟨hwi, hflag⟩ := hempty hE
    rw [Csv.SaveToFile, hE]
    rw [show rowsOutput t.separator [] = [] from rfl]
    unfold Parse
    rw [show parseChars t.separator t.has_header_row ParseState.init []
          = .ok ParseState.init from rfl]
    rw [hflag]
    rfl
  · have hsepq : (t.separator == '"') = false := by
      rcases hx : t.separator == '"'
      · rfl
      · exact absurd (eq_of_beq hx) hq
    have hnsep : (('\n' : Char) == t.separator) = false := by
      rcases hx : ('\n' : Char) == t.separator
      · rfl
      · exact absurd (eq_of_beq hx).symm hn
    obtain ⟨acc2, hrun, hrows2, hflag2, _, _⟩ :=
      parse_rows t.separator t.has_header_row hsepq hnsep t.allowed_width t.rows
        (fun r hr => ⟨(hvals r hr).1, hwidths r hr, (hvals r hr).2⟩)
        (Csv.new ',') (fun _ => rfl) (fun h => absurd rfl h)
    unfold Parse
    rw [Csv.SaveToFile]
    rw [show (ParseState.init : ParseState) = ⟨false, [], ⟨[]⟩, Csv.new ','⟩ from rfl]
    rw [hrun]
    have hfe : t.rows.isEmpty = false := by
      cases hx : t.rows
      · exact absurd hx hE
      · rfl
    rw [show Except.map (fun c => (c.rows, c.has_header_row))
          (Except.map (fun st : ParseState => st.csv)
            (Except.ok (⟨false, [], ⟨[]⟩, acc2⟩ : ParseState)))
        = .ok (acc2.rows, acc2.has_header_row) from rfl]
    rw [hrows2, hflag2, hfe]
    rw [show (Csv.new ',').rows = [] from rfl]
    simp [Csv.new]

/-- Witness for the amended C1 at the header-plus-one-data-row table of
scenario D. -/
theorem claim1_witness :
    Built ⟨true, true, ',', 2, [⟨[⟨['h', '1']⟩, ⟨['h', '2']⟩]⟩, ⟨[⟨['a']⟩, ⟨['b']⟩]⟩]⟩
  ∧ (⟨true, true, ',', 2, [⟨[⟨['h', '1']⟩, ⟨['h', '2']⟩]⟩, ⟨[⟨['a']⟩, ⟨['b']⟩]⟩]⟩ :
      Csv).separator ≠ '"'
  ∧ (⟨true, true, ',', 2, [⟨[⟨['h', '1']⟩, ⟨['h', '2']⟩]⟩, ⟨[⟨['a']⟩, ⟨['b']⟩]⟩]⟩ :
      Csv).separator ≠ '\n'
  ∧ Except.map (fun c => (c.rows, c.has_header_row))
      (Parse (⟨true, true, ',', 2, [⟨[⟨['h', '1']⟩, ⟨['h', '2']⟩]⟩, ⟨[⟨['a']⟩, ⟨['b']⟩]⟩]⟩ :
          Csv).SaveToFile ',' true)
    = .ok ([⟨[⟨['h', '1']⟩, ⟨['h', '2']⟩]⟩, ⟨[⟨['a']⟩, ⟨['b']⟩]⟩], true) := by
  have hbuilt : Built ⟨true, true, ',', 2, [⟨[⟨['h', '1']⟩, ⟨['h', '2']⟩]⟩, ⟨[⟨['a']⟩, ⟨['b']⟩]⟩]⟩ :=
    Built.data
      (Built.header (Built.new ',')
        (show (Csv.new ',').AddHeaderRow ⟨[⟨['h', '1']⟩, ⟨['h', '2']⟩]⟩
          = (⟨true, true, ',', 2, [⟨[⟨['h', '1']⟩, ⟨['h', '2']⟩]⟩]⟩, none) from by decide))
      (show (⟨true, true, ',', 2, [⟨[⟨['h', '1']⟩, ⟨['h', '2']⟩]⟩]⟩ : Csv).AddDataRow
          ⟨[⟨['a']⟩, ⟨['b']⟩]⟩
        = (⟨true, true, ',', 2, [⟨[⟨['h', '1']⟩, ⟨['h', '2']⟩]⟩, ⟨[⟨['a']⟩, ⟨['b']⟩]⟩]⟩, none)
        from by decide)
  refine ⟨hbuilt, by decide, by decide, ?_⟩
  exact claim1_roundtrip _ hbuilt (by decide) (by decide) (by decide)

end Csvpp
